import Mathlib

/-!
# audiotags: the Go side of the boundary with the native tagging engine

A shallow embedding of `audiotags.go`.  The native engine and the image codec
are external: a native call is represented by the callbacks it makes and the
flag it reports, a codec by the functions it provides.  A Go panic is the
`none` result of the operation that raises it.
-/

namespace Audiotags

/-! ## Machine integers at the boundary -/

/-- Conversion of a Go integer to a C `int` (32 bits, two's complement). -/
def toCInt (n : Int) : Int := (n + 2 ^ 31) % 2 ^ 32 - 2 ^ 31

/-- Conversion of a Go integer to a C `unsigned int` (32 bits). -/
def toCUInt (n : Int) : Nat := (n % 2 ^ 32).toNat

/-- Conversion `uint64(id)` of a C `int` (sign extension to 64 bits). -/
def toUint64 (c : Int) : Nat := (c % 2 ^ 64).toNat

/-! ## Audio properties -/

/-- The native properties struct, read through its four accessor calls. -/
structure NativeProps where
  length : Int
  bitrate : Int
  samplerate : Int
  channels : Int
deriving DecidableEq, Repr

/-- The Go record `AudioProperties`. -/
structure AudioProperties where
  Length : Int
  Bitrate : Int
  Samplerate : Int
  Channels : Int
deriving DecidableEq, Repr

/-- Method `(props *AudioProperties) isEmpty()`: the receiver is a pointer, `none` is the nil
pointer; reading `props.Bitrate` through nil panics (result `none`). -/
def AudioProperties.isEmpty : Option AudioProperties → Option Bool
  | none => none
  | some props =>
    some (props.Bitrate == 0 && props.Length == 0 && props.Samplerate == 0 && props.Channels == 0)

/-- Method `ReadAudioProperties`: the argument is what `audiotags_file_audioproperties` returned
(`none` for NULL); the result is the returned pointer (`none` for nil). -/
def ReadAudioProperties (props : Option NativeProps) : Option AudioProperties :=
  match props with
  | none => none
  | some props =>
    some { Length := props.length, Bitrate := props.bitrate,
           Samplerate := props.samplerate, Channels := props.channels }

/-- Method `HasMedia`: `!f.ReadAudioProperties().isEmpty()`; `none` is a panic. -/
def HasMedia (props : Option NativeProps) : Option Bool :=
  (AudioProperties.isEmpty (ReadAudioProperties props)).map not

/-! ## Tag maps -/

abbrev Byte := Nat

/-- The Go type `keyMap = map[string][]string`: entries with pairwise distinct keys; the order of
the list stands for the (unspecified) order in which `range` visits the map. -/
abbrev KeyMap := List (String × List String)

/-- Lookup of a key in a map. -/
def KeyMap.find? : KeyMap → String → Option (List String)
  | [], _ => none
  | (k, v) :: rest, key => if k = key then some v else KeyMap.find? rest key

/-- The expression `m[k]` of Go: the nil slice for an absent key. -/
def KeyMap.get (m : KeyMap) (key : String) : List String := (KeyMap.find? m key).getD []

/-- The assignment `m[k] = v` of Go. -/
def KeyMap.set : KeyMap → String → List String → KeyMap
  | [], key, val => [(key, val)]
  | (k, v) :: rest, key, val =>
    if k = key then (key, val) :: rest else (k, v) :: KeyMap.set rest key val

/-- The keys of a map. -/
def KeyMap.keys (m : KeyMap) : List String := m.map Prod.fst

/-! ## The correlation registry -/

/-- What the registry `maps` holds under a session id: a `keyMap` (a reference to a map object)
or a `*bytes.Reader` over a private copy of picture bytes. -/
inductive Slot where
  | tags (ref : Nat)
  | image (content : List Byte)
deriving DecidableEq, Repr

/-- The package state: the registry `maps` (a `sync.Map` keyed by `uint64`), the counter
`mapsNextID`, and the map objects that references in the registry point to. -/
structure World where
  maps : Nat → Option Slot
  mapsNextID : Nat
  heap : List KeyMap

/-- The initial package state. -/
def World.init : World := { maps := fun _ => none, mapsNextID := 0, heap := [] }

/-- Registry operation `maps.Store(id, v)`. -/
def World.Store (w : World) (id : Nat) (v : Slot) : World :=
  { w with maps := fun k => if k = id then some v else w.maps k }

/-- Registry operation `maps.Delete(id)`. -/
def World.Delete (w : World) (id : Nat) : World :=
  { w with maps := fun k => if k = id then none else w.maps k }

/-- Counter operation `mapsNextID.Add(1)`: the new value of the 64-bit counter. -/
def World.nextID (w : World) : Nat := (w.mapsNextID + 1) % 2 ^ 64

/-- A callback made by the native engine, with the arguments it passes. A C string argument is
given by the Go string `C.GoString` reads from it, a picture buffer by its bytes by offset. -/
inductive Callback where
  | tagPut (id : Int) (key val : String)
  | putImage (id : Int) (data : Nat → Byte) (size : Int)

/-- The key under which a callback looks up or stores its slot: `uint64(id)`. -/
def Callback.key : Callback → Nat
  | .tagPut id _ _ => toUint64 id
  | .putImage id _ _ => toUint64 id

/-- Exported callback `goTagPut`. The result of `maps.Load` goes unchecked into the type
assertion `r.(keyMap)`, which panics (`none`) on a missing slot and on a slot of the other kind. -/
def goTagPut (lower : String → String) (w : World) (id : Int) (key val : String) : Option World :=
  match w.maps (toUint64 id) with
  | some (Slot.tags ref) =>
    let m := w.heap.getD ref []
    let k := lower key
    some { w with heap := w.heap.set ref (KeyMap.set m k (KeyMap.get m k ++ [val])) }
  | _ => none

/-- Library call `C.GoBytes(data, size)`: a copy of `size` bytes; panics on a negative size. -/
def goBytes (data : Nat → Byte) (size : Int) : Option (List Byte) :=
  if size < 0 then none else some ((List.range size.toNat).map data)

/-- Exported callback `goPutImage`. -/
def goPutImage (w : World) (id : Int) (data : Nat → Byte) (size : Int) : Option World :=
  match goBytes data size with
  | none => none
  | some bytes => some (w.Store (toUint64 id) (Slot.image bytes))

/-- One callback. -/
def runCallback (lower : String → String) (w : World) : Callback → Option World
  | .tagPut id key val => goTagPut lower w id key val
  | .putImage id data size => goPutImage w id data size

/-- The callbacks of one native call, in order, up to the first that panics: the state reached
and whether all of them returned. -/
def runCallbacks (lower : String → String) : World → List Callback → World × Bool
  | w, [] => (w, true)
  | w, c :: cs =>
    match runCallback lower w c with
    | none => (w, false)
    | some w1 => runCallbacks lower w1 cs

/-- Method `ReadTags`. The argument `native` is `audiotags_file_properties` for the file: from
the C `int` it is passed to the callbacks it makes and the flag it reports (which the method
drops). The result is the state after the deferred `maps.Delete(id)` and the returned map, or
`none` when a callback panicked. -/
def ReadTags (lower : String → String) (native : Int → List Callback × Bool) (w : World) :
    World × Option KeyMap :=
  let id := w.nextID
  let w1 := { w with mapsNextID := id }
  let ref := w1.heap.length
  let w2 := { w1 with heap := w1.heap ++ [[]] }
  let w3 := w2.Store id (Slot.tags ref)
  let r := runCallbacks lower w3 (native (toCInt id)).1
  (r.1.Delete id, if r.2 then some (r.1.heap.getD ref []) else none)

/-- Method `ReadImageRaw`. The result is the state after the deferred `maps.Delete(id)` and the
returned reader (`some none` for nil), or `none` on a panic: in a callback, or in the type
assertion `v.(*bytes.Reader)`. -/
def ReadImageRaw (lower : String → String) (native : Int → List Callback × Bool) (w : World) :
    World × Option (Option (List Byte)) :=
  let id := w.nextID
  let w1 := { w with mapsNextID := id }
  let r := runCallbacks lower w1 (native (toCInt id)).1
  (r.1.Delete id,
    if r.2 then
      match r.1.maps id with
      | none => some none
      | some (Slot.image content) => some (some content)
      | some (Slot.tags _) => none
    else none)

/-- Method `ReadImage`, with `decode` for `image.Decode`. The returned pair is `(img, err)`. -/
def ReadImage {Img : Type} (decode : List Byte → Except String Img) (lower : String → String)
    (native : Int → List Callback × Bool) (w : World) :
    World × Option (Option Img × Option String) :=
  let id := w.nextID
  let w1 := { w with mapsNextID := id }
  let r := runCallbacks lower w1 (native (toCInt id)).1
  (r.1.Delete id,
    if r.2 then
      match r.1.maps id with
      | none => some (none, none)
      | some (Slot.image content) =>
        match decode content with
        | .ok img => some (some img, none)
        | .error err => some (none, some err)
      | some (Slot.tags _) => none
    else none)

/-- The update `m[k] = append(m[k], v)` with `k` the lower-cased name, as `goTagPut` does it on
the map object of its slot. -/
def putTag (lower : String → String) (m : KeyMap) (key val : String) : KeyMap :=
  KeyMap.set m (lower key) (KeyMap.get m (lower key) ++ [val])

/-- The registry `w1` after a call that allocated `id` in state `w`: no slot under `id`, every
other key as in `w`; hence the registry of `w` itself when `id` had no slot there. -/
def Released (w w1 : World) (id : Nat) : Prop :=
  w1.maps id = none ∧ (∀ k, k ≠ id → w1.maps k = w.maps k) ∧
    (w.maps id = none → w1.maps = w.maps)

/-! ## The write side -/

/-- A call that leaves the package: to the image codec or to the native engine, with the
arguments as they cross the boundary. A C string argument is given by the Go string that
`C.CString` copied, a byte buffer by its content. -/
inductive Call where
  | jpegEncode (quality : Nat)
  | pngEncode
  | clearProperties
  | writeProperties (count : Nat) (fields values : List String)
  | writePicture (data : List Byte) (length : Nat) (w h : Int) (mime : String)
deriving DecidableEq, Repr

/-- The constant `JPEG`. -/
def JPEG : Int := 0

/-- The constant `PNG`. -/
def PNG : Int := 1

/-- Method `WriteTags`. The argument `engine` gives the flag the native engine reports for a
call; the result is the returned flag and the calls made, in order. -/
def WriteTags (engine : Call → Bool) (tagMap : KeyMap) : Bool × List Call :=
  if tagMap.length = 0 then
    (engine Call.clearProperties, [Call.clearProperties])
  else
    let tagFields := tagMap.map (fun e => e.1)
    let tagValues := tagMap.map (fun e => String.intercalate "\x0b" e.2)
    let call := Call.writeProperties (toCUInt tagMap.length) tagFields tagValues
    (engine call, [call])

/-- Method `WriteImageData`. -/
def WriteImageData (engine : Call → Bool) (data : List Byte) (format : String) (w h : Int) :
    Bool × List Call :=
  if data.length = 0 then
    (false, [])
  else
    let call := Call.writePicture data (toCUInt data.length) (toCInt w) (toCInt h) format
    (engine call, [call])

/-- The image codec and the image type, external to the package: `jpeg.Encode` with a quality,
`png.Encode`, and the size of `img.Bounds()`. -/
structure ImageCodec (Img : Type) where
  jpegEncode : Img → Nat → Except String (List Byte)
  pngEncode : Img → Except String (List Byte)
  sizeX : Img → Int
  sizeY : Img → Int

/-- The part of `WriteImage` after the `switch`: the encoded bytes are checked and written. -/
def writeEncoded {Img : Type} (codec : ImageCodec Img) (engine : Call → Bool) (img : Img)
    (data : List Byte) (formatStr : String) (made : List Call) : Option String × List Call :=
  if data.length = 0 then
    (some "can't write empty image", made)
  else
    let r := WriteImageData engine data formatStr (codec.sizeX img) (codec.sizeY img)
    if !r.1 then (some "can't write image", made ++ r.2) else (none, made ++ r.2)

/-- Method `WriteImage`: the returned error (`none` for nil) and the calls made, in order. -/
def WriteImage {Img : Type} (codec : ImageCodec Img) (engine : Call → Bool) (img : Img)
    (format : Int) : Option String × List Call :=
  if format = JPEG then
    match codec.jpegEncode img 65 with
    | .error err => (some err, [Call.jpegEncode 65])
    | .ok data => writeEncoded codec engine img data "image/jpeg" [Call.jpegEncode 65]
  else if format = PNG then
    match codec.pngEncode img with
    | .error err => (some err, [Call.pngEncode])
    | .ok data => writeEncoded codec engine img data "image/png" [Call.pngEncode]
  else
    (some "unsuppported image format", [])

/-! ## Inputs used in the examples -/

/-- A native enumeration call that makes one tag callback per listed pair, each with the C `int`
it was passed. -/
def tagEngine (tags : List (String × String)) : Int → List Callback × Bool :=
  fun c => (tags.map (fun t => Callback.tagPut c t.1 t.2), true)

/-- A native picture call that makes one picture callback per listed payload, each with the C
`int` it was passed, and reports the given flag. -/
def pictureEngine (payloads : List (List Byte)) (status : Bool) : Int → List Callback × Bool :=
  fun c => (payloads.map (fun p => Callback.putImage c (fun i => p.getD i 0) p.length), status)

/-- A package state with an empty registry and the counter at `n`. -/
def World.atCounter (n : Nat) : World := { maps := fun _ => none, mapsNextID := n, heap := [] }

/-- ASCII lower-casing, standing for `strings.ToLower` in the examples. -/
def asciiLower (s : String) : String := String.mk (s.data.map Char.toLower)

/-- A codec over images that are just their size, encoding to a fixed byte. -/
def sizeCodec : ImageCodec (Int × Int) :=
  { jpegEncode := fun _ _ => .ok [255], pngEncode := fun _ => .ok [137],
    sizeX := fun i => i.1, sizeY := fun i => i.2 }

/-- A tag map of 2^32 entries: the keys are the strings of 0, 1, 2, ... letters `a`, every value
list is empty. -/
def bigMap : KeyMap :=
  (List.range (2 ^ 32)).map (fun i => (String.mk (List.replicate i 'a'), ([] : List String)))

/-! ## Audio properties: theorems -/

/-- C1: for every properties record the native engine reports, `HasMedia` returns true exactly
when the four fields are not all zero, and `isEmpty` is true exactly when all four are zero. -/
theorem hasMedia_iff_not_all_zero (p : NativeProps) :
    (∃ b, HasMedia (some p) = some b ∧
      (b = true ↔ ¬ (p.length = 0 ∧ p.bitrate = 0 ∧ p.samplerate = 0 ∧ p.channels = 0))) ∧
    (∃ e, AudioProperties.isEmpty (ReadAudioProperties (some p)) = some e ∧
      (e = true ↔ (p.length = 0 ∧ p.bitrate = 0 ∧ p.samplerate = 0 ∧ p.channels = 0))) := by
  refine ⟨⟨_, rfl, ?_⟩, ⟨_, rfl, ?_⟩⟩
  · simp only [Bool.not_eq_true', Bool.and_eq_true, beq_iff_eq, Bool.and_eq_false_iff]
    constructor
    · intro h hz
      rcases hz with ⟨h1, h2, h3, h4⟩
      simp [h1, h2, h3, h4] at h
    · intro h
      by_contra hc
      apply h
      simp only [not_or, Bool.not_eq_false, beq_iff_eq] at hc
      obtain ⟨⟨⟨hb, hl⟩, hs⟩, hch⟩ := hc
      exact ⟨hl, hb, hs, hch⟩
  · simp only [Bool.and_eq_true, beq_iff_eq]
    constructor
    · rintro ⟨⟨⟨hb, hl⟩, hs⟩, hch⟩
      exact ⟨hl, hb, hs, hch⟩
    · rintro ⟨hl, hb, hs, hch⟩
      exact ⟨⟨⟨hb, hl⟩, hs⟩, hch⟩

/-- C8, as the code has it: when the native engine reports no audio properties (a null
pointer), `ReadAudioProperties` returns nil, no record; and it returns nil in that case only. -/
theorem readAudioProperties_null :
    ReadAudioProperties none = none ∧
      ∀ props : Option NativeProps, ReadAudioProperties props = none ↔ props = none := by
  refine ⟨rfl, fun props => ?_⟩
  cases props with
  | none => simp [ReadAudioProperties]
  | some p => simp [ReadAudioProperties]

/-- C8 fails as stated: on a null properties pointer `ReadAudioProperties` does not return the
all-zero record, and `HasMedia` does not return false (it dereferences the nil pointer). -/
theorem readAudioProperties_null_not_zero_record :
    ReadAudioProperties none ≠
        some { Length := 0, Bitrate := 0, Samplerate := 0, Channels := 0 } ∧
      HasMedia none ≠ some false ∧ HasMedia none = none := by
  refine ⟨by simp [ReadAudioProperties], by simp [HasMedia, ReadAudioProperties, AudioProperties.isEmpty], rfl⟩

/-! ## The boundary integers: lemmas -/

theorem toCInt_of_range (n : Int) (h1 : -(2 ^ 31) ≤ n) (h2 : n < 2 ^ 31) : toCInt n = n := by
  unfold toCInt
  rw [Int.emod_eq_of_lt (by omega) (by omega)]
  omega

theorem toCUInt_of_range (n : Nat) (h : n < 2 ^ 32) : toCUInt (n : Int) = n := by
  unfold toCUInt
  rw [Int.emod_eq_of_lt (by omega) (by omega)]
  simp

theorem toUint64_toCInt_of_lt (id : Nat) (h : id < 2 ^ 31) : toUint64 (toCInt (id : Int)) = id := by
  rw [toCInt_of_range _ (by omega) (by omega)]
  unfold toUint64
  rw [Int.emod_eq_of_lt (by omega) (by omega)]
  simp

/-! ## The tag callback without a slot -/

theorem goTagPut_no_slot (lower : String → String) (w : World) (id : Int) (key val : String)
    (h : w.maps (toUint64 id) = none) : goTagPut lower w id key val = none := by
  unfold goTagPut
  rw [h]

/-- C2, on the code: with no slot for the id in the registry (here the initial, empty registry
and id 1), `goTagPut` panics in the type assertion `r.(keyMap)` instead of dropping the value. -/
theorem goTagPut_missing_slot_panics :
    World.init.maps (toUint64 1) = none ∧
      goTagPut asciiLower World.init 1 "TITLE" "x" = none :=
  ⟨rfl, goTagPut_no_slot _ _ _ _ _ rfl⟩

/-! ## The session id across the boundary -/

/-- C10, on the code: the id the counter produces from 2^31 - 1 is 2^31; as a C `int` it is
-2^31 and the callback looks up key 2^64 - 2^31, not the id; the ids 1 and 2^32 + 1 resolve to
the same key; `ReadTags` at that counter panics on the first tag callback the engine makes
with the C `int` it was passed; and `ReadImageRaw` at that counter returns nil although the
engine delivered a picture, which stays in the registry under the other key. -/
theorem sessionId_not_preserved :
    (World.atCounter (2 ^ 31 - 1)).nextID = 2 ^ 31 ∧
      toCInt ((2 ^ 31 : Nat) : Int) = -(2 ^ 31) ∧
      toUint64 (toCInt ((2 ^ 31 : Nat) : Int)) = 2 ^ 64 - 2 ^ 31 ∧
      toUint64 (toCInt ((2 ^ 31 : Nat) : Int)) ≠ 2 ^ 31 ∧
      toUint64 (toCInt ((2 ^ 32 + 1 : Nat) : Int)) = toUint64 (toCInt ((1 : Nat) : Int)) ∧
      (ReadTags asciiLower (tagEngine [("TITLE", "x")]) (World.atCounter (2 ^ 31 - 1))).2 = none ∧
      (ReadImageRaw asciiLower (pictureEngine [[7]] true) (World.atCounter (2 ^ 31 - 1))).2 =
        some none ∧
      (ReadImageRaw asciiLower (pictureEngine [[7]] true) (World.atCounter (2 ^ 31 - 1))).1.maps
        (2 ^ 64 - 2 ^ 31) = some (Slot.image [7]) := by
  refine ⟨by decide, by decide, by decide, by decide, by decide, ?_, by decide, by decide⟩
  have hid : (World.atCounter (2 ^ 31 - 1)).nextID = 2 ^ 31 := by decide
  have hkey : toUint64 (toCInt ((2 ^ 31 : Nat) : Int)) = 2 ^ 64 - 2 ^ 31 := by decide
  simp only [ReadTags, tagEngine, hid, List.map, runCallbacks, runCallback]
  rw [goTagPut_no_slot]
  · rfl
  · rw [hkey]
    simp [World.Store, World.atCounter]

/-! ## Writing pictures -/

/-- C4: for every image and every format value other than JPEG (0) and PNG (1), `WriteImage`
returns a non-nil error and makes no call at all, neither to the codec nor to the native
engine. -/
theorem writeImage_unsupported_format {Img : Type} (codec : ImageCodec Img)
    (engine : Call → Bool) (img : Img) (format : Int) (hj : format ≠ 0) (hp : format ≠ 1) :
    (WriteImage codec engine img format).1 ≠ none ∧
      (WriteImage codec engine img format).2 = [] := by
  unfold WriteImage
  rw [if_neg (by simpa [JPEG] using hj), if_neg (by simpa [PNG] using hp)]
  simp

theorem writeImage_unsupported_format_witness :
    (2 : Int) ≠ 0 ∧ (2 : Int) ≠ 1 ∧
      (WriteImage sizeCodec (fun _ => true) ((3, 3) : Int × Int) (PNG + 1)).1 ≠ none ∧
      (WriteImage sizeCodec (fun _ => true) ((3, 3) : Int × Int) (PNG + 1)).2 = [] :=
  ⟨by decide, by decide,
    writeImage_unsupported_format sizeCodec (fun _ => true) (3, 3) (PNG + 1) (by decide) (by decide)⟩

/-- C5, as the code has it: on a zero-length byte sequence `WriteImageData` returns false and
makes no call; on a non-empty one it makes exactly one call, the native picture write, with
those bytes, their length as a C `unsigned int`, the width and height as C `int`s and the mime
string, and returns the flag the engine reports. The converted numbers are the given ones
whenever these fit the C types. -/
theorem writeImageData_calls (engine : Call → Bool) (data : List Byte) (format : String)
    (w h : Int) :
    (data = [] → WriteImageData engine data format w h = (false, [])) ∧
      (data ≠ [] →
        WriteImageData engine data format w h =
          (engine (Call.writePicture data (toCUInt data.length) (toCInt w) (toCInt h) format),
            [Call.writePicture data (toCUInt data.length) (toCInt w) (toCInt h) format])) ∧
      (data.length < 2 ^ 32 → toCUInt data.length = data.length) ∧
      (-(2 ^ 31) ≤ w → w < 2 ^ 31 → toCInt w = w) ∧
      (-(2 ^ 31) ≤ h → h < 2 ^ 31 → toCInt h = h) := by
  refine ⟨?_, ?_, toCUInt_of_range _, toCInt_of_range w, toCInt_of_range h⟩
  · intro hd
    simp [WriteImageData, hd]
  · intro hd
    have : data.length ≠ 0 := by
      simpa [List.length_eq_zero] using hd
    simp [WriteImageData, this]

/-- C5 fails as stated: for the one-byte picture with width 2^32 (a Go `int` of 64 bits) the
native call receives width 0, not the given width. -/
theorem writeImageData_width_truncated :
    (WriteImageData (fun _ => true) [255] "image/png" 4294967296 1).2 =
        [Call.writePicture [255] 1 0 1 "image/png"] ∧
      (WriteImageData (fun _ => true) [255] "image/png" 4294967296 1).2 ≠
        [Call.writePicture [255] 1 4294967296 1 "image/png"] := by
  constructor <;> decide

/-! ## Tag maps: lemmas -/

theorem KeyMap.find?_set (m : KeyMap) (key : String) (val : List String) (k : String) :
    KeyMap.find? (KeyMap.set m key val) k = if key = k then some val else KeyMap.find? m k := by
  induction m with
  | nil => simp [KeyMap.set, KeyMap.find?]
  | cons e rest ih =>
    obtain ⟨k0, v0⟩ := e
    by_cases h0 : k0 = key
    · subst h0
      by_cases hk : k0 = k <;> simp [KeyMap.set, KeyMap.find?, hk]
    · by_cases hk : key = k
      · subst hk
        simp [KeyMap.set, KeyMap.find?, h0, ih]
      · simp [KeyMap.set, KeyMap.find?, h0, hk, ih]

theorem KeyMap.mem_keys_iff (m : KeyMap) (k : String) :
    k ∈ KeyMap.keys m ↔ KeyMap.find? m k ≠ none := by
  induction m with
  | nil => simp [KeyMap.keys, KeyMap.find?]
  | cons e rest ih =>
    obtain ⟨k0, v0⟩ := e
    by_cases hk : k0 = k
    · simp [KeyMap.keys, KeyMap.find?, hk]
    · have hk2 : ¬ k = k0 := fun h => hk h.symm
      simp only [KeyMap.keys] at ih
      simp [KeyMap.keys, KeyMap.find?, hk, hk2, ih]

theorem KeyMap.find?_eq_some_iff (m : KeyMap) (hm : (KeyMap.keys m).Nodup) (k : String)
    (vs : List String) : KeyMap.find? m k = some vs ↔ (k, vs) ∈ m := by
  induction m with
  | nil => simp [KeyMap.find?]
  | cons e rest ih =>
    obtain ⟨k0, v0⟩ := e
    have hm2 : k0 ∉ KeyMap.keys rest ∧ (KeyMap.keys rest).Nodup := by
      simpa [KeyMap.keys] using hm
    by_cases hk : k0 = k
    · subst hk
      constructor
      · intro h
        simp only [KeyMap.find?, if_true, Option.some.injEq] at h
        simp [h]
      · intro h
        rcases List.mem_cons.1 h with h1 | h1
        · simp only [Prod.mk.injEq] at h1
          simp [KeyMap.find?, h1.2]
        · exfalso
          apply hm2.1
          exact List.mem_map.2 ⟨_, h1, rfl⟩
    · have hk2 : ¬ k = k0 := fun h => hk h.symm
      simp [KeyMap.find?, hk, hk2, ih hm2.2]

theorem KeyMap.nodup_keys_set (m : KeyMap) (key : String) (val : List String)
    (hm : (KeyMap.keys m).Nodup) : (KeyMap.keys (KeyMap.set m key val)).Nodup := by
  induction m with
  | nil => simp [KeyMap.set, KeyMap.keys]
  | cons e rest ih =>
    obtain ⟨k0, v0⟩ := e
    have hm2 : k0 ∉ KeyMap.keys rest ∧ (KeyMap.keys rest).Nodup := by
      simpa [KeyMap.keys] using hm
    by_cases h0 : k0 = key
    · subst h0
      simpa [KeyMap.set, KeyMap.keys] using hm
    · have hnot : k0 ∉ KeyMap.keys (KeyMap.set rest key val) := by
        rw [KeyMap.mem_keys_iff, KeyMap.find?_set]
        have h1 : ¬ key = k0 := fun h => h0 h.symm
        rw [if_neg h1]
        rw [← KeyMap.mem_keys_iff]
        exact hm2.1
      have hrec := ih hm2.2
      simp only [KeyMap.set, if_neg h0]
      simp only [KeyMap.keys, List.map_cons, List.nodup_cons]
      exact ⟨hnot, hrec⟩

/-! ## Writing tags -/

/-- C6, as the code has it: `WriteTags` makes exactly one native call and returns its flag: the
clear call for an empty map; for a non-empty map the write call, with count the number of
entries as a C `unsigned int` (the number itself below 2^32) and two arrays of that many
elements whose pairs are, without repetition, exactly the pairs of a key of the map and its
values joined with U+000B. -/
theorem writeTags_calls (engine : Call → Bool) (m : KeyMap) (hm : (KeyMap.keys m).Nodup) :
    (m = [] → WriteTags engine m = (engine Call.clearProperties, [Call.clearProperties])) ∧
      (m ≠ [] → ∃ fields values,
        WriteTags engine m =
          (engine (Call.writeProperties (toCUInt m.length) fields values),
            [Call.writeProperties (toCUInt m.length) fields values]) ∧
        fields.length = m.length ∧ values.length = m.length ∧
        (List.zip fields values).Nodup ∧
        ∀ k v, (k, v) ∈ List.zip fields values ↔
          ∃ vs, KeyMap.find? m k = some vs ∧ v = String.intercalate "\x0b" vs) ∧
      (m.length < 2 ^ 32 → toCUInt m.length = m.length) := by
  refine ⟨?_, ?_, toCUInt_of_range _⟩
  · intro h
    simp [WriteTags, h]
  · intro h
    have hlen : m.length ≠ 0 := by simpa [List.length_eq_zero] using h
    refine ⟨m.map (fun e => e.1), m.map (fun e => String.intercalate "\x0b" e.2), ?_, ?_, ?_, ?_, ?_⟩
    · simp [WriteTags, hlen]
    · simp
    · simp
    · rw [List.zip_map']
      apply List.Nodup.of_map Prod.fst
      rw [List.map_map]
      exact hm
    · intro k v
      rw [List.zip_map']
      constructor
      · intro hmem
        obtain ⟨e, he, heq⟩ := List.mem_map.1 hmem
        simp only [Prod.mk.injEq] at heq
        refine ⟨e.2, ?_, heq.2.symm⟩
        rw [KeyMap.find?_eq_some_iff m hm, ← heq.1]
        exact he
      · rintro ⟨vs, hfind, rfl⟩
        rw [KeyMap.find?_eq_some_iff m hm] at hfind
        exact List.mem_map.2 ⟨(k, vs), hfind, rfl⟩

theorem writeTags_calls_witness :
    (KeyMap.keys [("artist", ["A", "B"]), ("title", ["T"])]).Nodup ∧
      ([("artist", ["A", "B"]), ("title", ["T"])] ≠ ([] : KeyMap) → ∃ fields values,
        WriteTags (fun _ => true) [("artist", ["A", "B"]), ("title", ["T"])] =
          (true, [Call.writeProperties 2 fields values]) ∧
        (List.zip fields values).Nodup) := by
  have hm : (KeyMap.keys [("artist", ["A", "B"]), ("title", ["T"])]).Nodup := by decide
  refine ⟨hm, fun hne => ?_⟩
  obtain ⟨fields, values, h1, _, _, h4, _⟩ :=
    (writeTags_calls (fun _ => true) [("artist", ["A", "B"]), ("title", ["T"])] hm).2.1 hne
  exact ⟨fields, values, h1, h4⟩

theorem bigMap_length : bigMap.length = 4294967296 := by
  unfold bigMap
  rw [List.length_map, List.length_range]
  norm_num

/-- C6 fails as stated: for the map `bigMap` of 2^32 entries with pairwise distinct keys the
write call is made with count 0, not with the number of entries. -/
theorem writeTags_count_truncated :
    (KeyMap.keys bigMap).Nodup ∧ bigMap.length = 4294967296 ∧
      ∃ fields values,
        (WriteTags (fun _ => true) bigMap).2 = [Call.writeProperties 0 fields values] := by
  refine ⟨?_, bigMap_length, ?_⟩
  · unfold KeyMap.keys bigMap
    rw [List.map_map]
    apply List.Nodup.map _ (List.nodup_range _)
    intro i j hij
    have hlen := congrArg (fun e : String => e.data.length) hij
    simpa using hlen
  · refine ⟨bigMap.map (fun e => e.1),
      bigMap.map (fun e => String.intercalate "\x0b" e.2), ?_⟩
    unfold WriteTags
    rw [bigMap_length, if_neg (by decide)]
    have hc : toCUInt ((4294967296 : Nat) : Int) = 0 := by decide
    simp only [hc]

/-! ## The registry during a native call: lemmas -/

theorem runCallback_maps_other (lower : String → String) (w w1 : World) (c : Callback)
    (h : runCallback lower w c = some w1) (k : Nat) (hk : k ≠ c.key) : w1.maps k = w.maps k := by
  cases c with
  | tagPut id key val =>
    simp only [runCallback, goTagPut] at h
    split at h
    · simp only [Option.some.injEq] at h
      rw [← h]
    · exact absurd h (by simp)
  | putImage id data size =>
    simp only [runCallback, goPutImage] at h
    split at h
    · exact absurd h (by simp)
    · simp only [Option.some.injEq] at h
      rw [← h]
      simp only [Callback.key] at hk
      simp [World.Store, hk]

theorem runCallbacks_maps_other (lower : String → String) (id : Nat) (cs : List Callback) :
    ∀ w : World, (∀ c ∈ cs, c.key = id) →
      ∀ k, k ≠ id → (runCallbacks lower w cs).1.maps k = w.maps k := by
  induction cs with
  | nil => intro w _ k _; rfl
  | cons c cs ih =>
    intro w hcs k hk
    simp only [runCallbacks]
    cases hrun : runCallback lower w c with
    | none => rfl
    | some w1 =>
      simp only []
      rw [ih w1 (fun c2 hc2 => hcs c2 (List.mem_cons_of_mem _ hc2)) k hk]
      apply runCallback_maps_other lower w w1 c hrun k
      rw [hcs c (List.mem_cons_self _ _)]
      exact hk

theorem released_of_others (w w2 : World) (id : Nat)
    (h : ∀ k, k ≠ id → w2.maps k = w.maps k) : Released w (w2.Delete id) id := by
  have h2 : ∀ k, k ≠ id → (w2.Delete id).maps k = w.maps k := by
    intro k hk
    simp [World.Delete, hk, h k hk]
  refine ⟨by simp [World.Delete], h2, ?_⟩
  intro hfresh
  funext k
  by_cases hk : k = id
  · subst hk
    simp [World.Delete, hfresh]
  · exact h2 k hk

/-- C7: whatever callbacks the native call makes with the session id (none, of either kind, any
number), and whatever flag it reports, after `ReadTags`, `ReadImage` or `ReadImageRaw` the
registry holds no slot under the id the call allocated and every other entry is as before the
call; so the registry is the one from before the call, the allocated id having had no slot. -/
theorem registry_released {Img : Type} (decode : List Byte → Except String Img)
    (lower : String → String) (native : Int → List Callback × Bool) (w : World)
    (hcb : ∀ c ∈ (native (toCInt w.nextID)).1, c.key = w.nextID) :
    Released w (ReadTags lower native w).1 w.nextID ∧
      Released w (ReadImage decode lower native w).1 w.nextID ∧
      Released w (ReadImageRaw lower native w).1 w.nextID := by
  refine ⟨?_, ?_, ?_⟩
  · apply released_of_others
    intro k hk
    rw [runCallbacks_maps_other lower w.nextID _ _ hcb k hk]
    simp [World.Store, hk]
  · apply released_of_others
    intro k hk
    rw [runCallbacks_maps_other lower w.nextID _ _ hcb k hk]
  · apply released_of_others
    intro k hk
    rw [runCallbacks_maps_other lower w.nextID _ _ hcb k hk]

theorem registry_released_witness :
    (∀ c ∈ (pictureEngine [[1, 2], [3]] false (toCInt World.init.nextID)).1,
        c.key = World.init.nextID) ∧
      Released World.init (ReadTags asciiLower (pictureEngine [[1, 2], [3]] false) World.init).1
        World.init.nextID ∧
      Released World.init
        (ReadImage (fun b => Except.ok b) asciiLower (pictureEngine [[1, 2], [3]] false)
          World.init).1 World.init.nextID ∧
      Released World.init (ReadImageRaw asciiLower (pictureEngine [[1, 2], [3]] false) World.init).1
        World.init.nextID := by
  have hcb : ∀ c ∈ (pictureEngine [[1, 2], [3]] false (toCInt World.init.nextID)).1,
      c.key = World.init.nextID := by
    intro c hc
    simp only [pictureEngine, List.map, List.mem_cons, List.mem_singleton, List.not_mem_nil,
      or_false] at hc
    rcases hc with rfl | rfl <;> decide
  exact ⟨hcb, registry_released (fun b => Except.ok b) asciiLower
    (pictureEngine [[1, 2], [3]] false) World.init hcb⟩

/-! ## Tag callbacks on one map object: lemmas -/

theorem KeyMap.get_putTag (lower : String → String) (m : KeyMap) (key val k : String) :
    KeyMap.get (putTag lower m key val) k =
      if lower key = k then KeyMap.get m k ++ [val] else KeyMap.get m k := by
  unfold putTag KeyMap.get
  rw [KeyMap.find?_set]
  by_cases h : lower key = k
  · subst h
    simp
  · simp [h]

theorem KeyMap.mem_keys_putTag (lower : String → String) (m : KeyMap) (key val k : String) :
    k ∈ KeyMap.keys (putTag lower m key val) ↔ k ∈ KeyMap.keys m ∨ lower key = k := by
  rw [KeyMap.mem_keys_iff, KeyMap.mem_keys_iff]
  unfold putTag
  rw [KeyMap.find?_set]
  by_cases h : lower key = k
  · simp [h]
  · simp [h]

theorem KeyMap.find?_of_mem_keys (m : KeyMap) (k : String) (h : k ∈ KeyMap.keys m) :
    KeyMap.find? m k = some (KeyMap.get m k) := by
  rw [KeyMap.mem_keys_iff] at h
  unfold KeyMap.get
  cases hf : KeyMap.find? m k with
  | none => exact absurd hf h
  | some v => rfl

theorem foldl_putTag_get (lower : String → String) (tags : List (Int × String × String)) :
    ∀ (m : KeyMap) (k : String),
      KeyMap.get (tags.foldl (fun acc t => putTag lower acc t.2.1 t.2.2) m) k =
        KeyMap.get m k ++
          (tags.filter (fun t => decide (lower t.2.1 = k))).map (fun t => t.2.2) := by
  induction tags with
  | nil => intro m k; simp
  | cons t rest ih =>
    intro m k
    rw [List.foldl_cons, ih, KeyMap.get_putTag]
    by_cases h : lower t.2.1 = k
    · simp [List.filter_cons, h]
    · simp [List.filter_cons, h]

theorem foldl_putTag_mem_keys (lower : String → String) (tags : List (Int × String × String)) :
    ∀ (m : KeyMap) (k : String),
      k ∈ KeyMap.keys (tags.foldl (fun acc t => putTag lower acc t.2.1 t.2.2) m) ↔
        k ∈ KeyMap.keys m ∨ ∃ t ∈ tags, lower t.2.1 = k := by
  induction tags with
  | nil => intro m k; simp
  | cons t rest ih =>
    intro m k
    rw [List.foldl_cons, ih, KeyMap.mem_keys_putTag]
    simp only [List.mem_cons, exists_eq_or_imp]
    tauto

theorem foldl_putTag_nodup (lower : String → String) (tags : List (Int × String × String)) :
    ∀ (m : KeyMap), (KeyMap.keys m).Nodup →
      (KeyMap.keys (tags.foldl (fun acc t => putTag lower acc t.2.1 t.2.2) m)).Nodup := by
  induction tags with
  | nil => intro m hm; exact hm
  | cons t rest ih =>
    intro m hm
    rw [List.foldl_cons]
    exact ih _ (KeyMap.nodup_keys_set _ _ _ hm)

theorem runCallbacks_tags (lower : String → String) (id ref : Nat)
    (tags : List (Int × String × String)) :
    ∀ w : World, w.maps id = some (Slot.tags ref) → ref < w.heap.length →
      (∀ t ∈ tags, toUint64 t.1 = id) →
      (runCallbacks lower w (tags.map (fun t => Callback.tagPut t.1 t.2.1 t.2.2))).2 = true ∧
        (runCallbacks lower w (tags.map (fun t => Callback.tagPut t.1 t.2.1 t.2.2))).1.heap.getD
            ref [] =
          tags.foldl (fun acc t => putTag lower acc t.2.1 t.2.2) (w.heap.getD ref []) := by
  induction tags with
  | nil => intro w _ _ _; exact ⟨rfl, rfl⟩
  | cons t rest ih =>
    intro w hslot href hid
    have hkey : toUint64 t.1 = id := hid t (List.mem_cons_self _ _)
    have hstep : runCallback lower w (Callback.tagPut t.1 t.2.1 t.2.2) =
        some { w with heap := w.heap.set ref (putTag lower (w.heap.getD ref []) t.2.1 t.2.2) } := by
      simp only [runCallback, goTagPut, hkey, hslot, putTag]
    simp only [List.map_cons, runCallbacks, hstep, List.foldl_cons]
    have hrec := ih { w with heap := w.heap.set ref (putTag lower (w.heap.getD ref []) t.2.1 t.2.2) }
      hslot (by simpa using href) (fun t2 ht2 => hid t2 (List.mem_cons_of_mem _ ht2))
    have hget : (w.heap.set ref (putTag lower (w.heap.getD ref []) t.2.1 t.2.2)).getD ref [] =
        putTag lower (w.heap.getD ref []) t.2.1 t.2.2 := by
      simp [List.getElem?_set_self href]
    simp only [hget] at hrec
    exact hrec

/-! ## Reading tags -/

/-- C3: when the callbacks of the native enumeration call are the tag callbacks
(k_1, v_1), ..., (k_n, v_n), each made with the session id, `ReadTags` returns a map whose keys
are exactly the lower-cased names, each once, and whose value under a key is the list of the
v_i with that lower-cased name, in callback order with duplicates kept; no callback gives the
empty map. -/
theorem readTags_collects (lower : String → String) (native : Int → List Callback × Bool)
    (w : World) (tags : List (Int × String × String))
    (hnat : (native (toCInt w.nextID)).1 = tags.map (fun t => Callback.tagPut t.1 t.2.1 t.2.2))
    (hid : ∀ t ∈ tags, toUint64 t.1 = w.nextID) :
    ∃ m, (ReadTags lower native w).2 = some m ∧
      (KeyMap.keys m).Nodup ∧
      (∀ k, k ∈ KeyMap.keys m ↔ ∃ t ∈ tags, lower t.2.1 = k) ∧
      (∀ k, k ∈ KeyMap.keys m →
        KeyMap.find? m k =
          some ((tags.filter (fun t => decide (lower t.2.1 = k))).map (fun t => t.2.2))) ∧
      (tags = [] → m = []) := by
  have hrun := runCallbacks_tags lower w.nextID w.heap.length tags
    (World.Store { maps := w.maps, mapsNextID := w.nextID, heap := w.heap ++ [[]] } w.nextID
      (Slot.tags w.heap.length))
    (by simp [World.Store]) (by simp [World.Store]) hid
  have hnil : (World.Store { maps := w.maps, mapsNextID := w.nextID, heap := w.heap ++ [[]] }
      w.nextID (Slot.tags w.heap.length)).heap.getD w.heap.length [] = [] := by
    simp [World.Store]
  rw [hnil] at hrun
  refine ⟨tags.foldl (fun acc t => putTag lower acc t.2.1 t.2.2) [], ?_, ?_, ?_, ?_, ?_⟩
  · simp only [ReadTags, hnat]
    rw [hrun.1, hrun.2]
    rfl
  · exact foldl_putTag_nodup lower tags [] (by simp [KeyMap.keys])
  · intro k
    rw [foldl_putTag_mem_keys]
    simp [KeyMap.keys]
  · intro k hk
    rw [KeyMap.find?_of_mem_keys _ _ hk, foldl_putTag_get]
    simp [KeyMap.get, KeyMap.find?]
  · intro h
    subst h
    rfl

theorem readTags_collects_witness :
    (∀ t ∈ [((1 : Int), "Artist", "A"), (1, "TITLE", "T"), (1, "ARTIST", "B")],
        toUint64 t.1 = World.init.nextID) ∧
      ∃ m, (ReadTags asciiLower (tagEngine [("Artist", "A"), ("TITLE", "T"), ("ARTIST", "B")])
          World.init).2 = some m ∧
        (∀ k, k ∈ KeyMap.keys m ↔
          ∃ t ∈ [((1 : Int), "Artist", "A"), (1, "TITLE", "T"), (1, "ARTIST", "B")],
            asciiLower t.2.1 = k) := by
  have hid : ∀ t ∈ [((1 : Int), "Artist", "A"), (1, "TITLE", "T"), (1, "ARTIST", "B")],
      toUint64 t.1 = World.init.nextID := by
    intro t ht
    simp only [List.mem_cons, List.mem_singleton, List.not_mem_nil, or_false] at ht
    rcases ht with rfl | rfl | rfl <;> decide
  refine ⟨hid, ?_⟩
  obtain ⟨m, h1, _, h3, _, _⟩ :=
    readTags_collects asciiLower (tagEngine [("Artist", "A"), ("TITLE", "T"), ("ARTIST", "B")])
      World.init [((1 : Int), "Artist", "A"), (1, "TITLE", "T"), (1, "ARTIST", "B")]
      (by
        have hc : toCInt (World.init.nextID : Int) = 1 := by decide
        simp [tagEngine, hc]) hid
  exact ⟨m, h1, h3⟩

/-! ## Reading the picture -/

theorem runCallbacks_pictures (lower : String → String) (id : Nat)
    (pics : List (Int × (Nat → Byte) × Int)) :
    ∀ w : World, (∀ p ∈ pics, toUint64 p.1 = id) → (∀ p ∈ pics, 0 ≤ p.2.2) →
      (runCallbacks lower w (pics.map (fun p => Callback.putImage p.1 p.2.1 p.2.2))).2 = true ∧
        (runCallbacks lower w (pics.map (fun p => Callback.putImage p.1 p.2.1 p.2.2))).1.maps id =
          match pics.getLast? with
          | none => w.maps id
          | some p => some (Slot.image ((List.range p.2.2.toNat).map p.2.1)) := by
  induction pics with
  | nil => intro w _ _; exact ⟨rfl, rfl⟩
  | cons p rest ih =>
    intro w hid hsize
    have hkey : toUint64 p.1 = id := hid p (List.mem_cons_self _ _)
    have hnn : ¬ p.2.2 < 0 := not_lt.2 (hsize p (List.mem_cons_self _ _))
    have hstep : runCallback lower w (Callback.putImage p.1 p.2.1 p.2.2) =
        some (w.Store id (Slot.image ((List.range p.2.2.toNat).map p.2.1))) := by
      simp only [runCallback, goPutImage, goBytes, if_neg hnn, hkey]
    simp only [List.map_cons, runCallbacks, hstep]
    have hrec := ih (w.Store id (Slot.image ((List.range p.2.2.toNat).map p.2.1)))
      (fun q hq => hid q (List.mem_cons_of_mem _ hq))
      (fun q hq => hsize q (List.mem_cons_of_mem _ hq))
    refine ⟨hrec.1, ?_⟩
    rw [hrec.2, List.getLast?_cons]
    cases rest.getLast? with
    | none => simp [World.Store]
    | some q => rfl

/-- C9: when the callbacks of the native picture call are picture callbacks made with the
session id, each with a payload of `size ≥ 0` bytes, `ReadImageRaw` returns nil if there was no
callback (the allocated id having no slot), and otherwise a reader over exactly the `size`
bytes of the last callback. -/
theorem readImageRaw_last_payload (lower : String → String)
    (native : Int → List Callback × Bool) (w : World) (pics : List (Int × (Nat → Byte) × Int))
    (hnat : (native (toCInt w.nextID)).1 =
      pics.map (fun p => Callback.putImage p.1 p.2.1 p.2.2))
    (hid : ∀ p ∈ pics, toUint64 p.1 = w.nextID) (hsize : ∀ p ∈ pics, 0 ≤ p.2.2) :
    (pics = [] → w.maps w.nextID = none → (ReadImageRaw lower native w).2 = some none) ∧
      (∀ p, pics.getLast? = some p →
        (ReadImageRaw lower native w).2 = some (some ((List.range p.2.2.toNat).map p.2.1))) := by
  have hrun := runCallbacks_pictures lower w.nextID pics
    { maps := w.maps, mapsNextID := w.nextID, heap := w.heap } hid hsize
  constructor
  · intro hnil hfresh
    subst hnil
    simp only [ReadImageRaw, hnat]
    rw [hrun.1, hrun.2]
    simp [hfresh]
  · intro p hp
    simp only [ReadImageRaw, hnat]
    rw [hrun.1, hrun.2, hp]
    simp

theorem readImageRaw_last_payload_witness :
    (∀ p ∈ [((1 : Int), (fun i => [10, 20].getD i 0 : Nat → Byte), (2 : Int)),
          (1, (fun i => [30].getD i 0 : Nat → Byte), 1)],
        toUint64 p.1 = World.init.nextID ∧ 0 ≤ p.2.2) ∧
      (ReadImageRaw asciiLower (pictureEngine [[10, 20], [30]] true) World.init).2 =
        some (some [30]) := by
  have hid : ∀ p ∈ [((1 : Int), (fun i => [10, 20].getD i 0 : Nat → Byte), (2 : Int)),
      (1, (fun i => [30].getD i 0 : Nat → Byte), 1)],
      toUint64 p.1 = World.init.nextID ∧ 0 ≤ p.2.2 := by
    intro p hp
    simp only [List.mem_cons, List.mem_singleton, List.not_mem_nil, or_false] at hp
    rcases hp with rfl | rfl <;> decide
  refine ⟨hid, ?_⟩
  have h := (readImageRaw_last_payload asciiLower (pictureEngine [[10, 20], [30]] true)
    World.init [((1 : Int), (fun i => [10, 20].getD i 0 : Nat → Byte), (2 : Int)),
      (1, (fun i => [30].getD i 0 : Nat → Byte), 1)]
    (by
      have hc : toCInt (World.init.nextID : Int) = 1 := by decide
      simp [pictureEngine, hc])
    (fun p hp => (hid p hp).1) (fun p hp => (hid p hp).2)).2 _ rfl
  rw [h]
  rfl

end Audiotags
